import Mathlib

/-!
Bulk image sender: verification development.

A shallow embedding of `main.go` (functions `isImage`, `sendImage`,
`sendImagesFromFolder`) together with the properties of the specification that
are settled against it.

Conventions of the embedding.

* Go strings are modelled by Lean strings, read as lists of characters.  The
  bytes `.` and `/` never occur inside a multi-byte UTF-8 sequence, so the byte
  scan of `filepath.Ext` and the character scan below find the same positions.
* Effects (opening a file, a POST, a sleep, a printed report, closing the file,
  `wg.Done`) are recorded in order in an event list; the environment (whether
  the open succeeds, what each POST returns, whether the close succeeds) is an
  explicit argument.
-/

namespace BulkSender

/-! ## `isImage` -/

/-- `os.IsPathSeparator` on Unix: the only separator is the slash. -/
def IsPathSeparator (c : Char) : Bool := c == '/'

/-- The loop of `filepath.Ext`: `rev` holds `path[i], path[i-1], ..., path[0]`
and `acc` holds `path[i+1:]`.  The scan stops with the empty extension at a path
separator or when the string is exhausted, and returns `path[i:]` at a dot. -/
def extScan : List Char → List Char → List Char
  | [], _ => []
  | c :: rest, acc =>
    if IsPathSeparator c then []
    else if c = '.' then c :: acc
    else extScan rest (c :: acc)

/-- `filepath.Ext`: scan the path backwards from its last byte. -/
def Ext (path : String) : String := ⟨extScan path.data.reverse []⟩

/-- `strings.ToLower`, on the characters that matter for the comparison made by
`isImage`: the letters `A`..`Z` are mapped to `a`..`z`.  Go also lowercases
letters outside ASCII; the only ones it maps to an ASCII letter are U+0130 (to
`i`) and U+212A (to `k`), none to one of `j p e g n`, so the three comparisons
of `isImage` are not affected by them. -/
def ToLower (s : String) : String := ⟨s.data.map Char.toLower⟩

/-- `isImage` of `main.go`. -/
def isImage (filename : String) : Bool :=
  let ext := ToLower (Ext filename)
  ext == ".jpg" || ext == ".jpeg" || ext == ".png"

/-! ### The extension as the specification words it -/

/-- The final path element, reading the path left to right: the text after the
last separator (the whole path when it has no separator). -/
def finalElementFrom (cur : List Char) : List Char → List Char
  | [] => cur
  | c :: cs =>
    if IsPathSeparator c then finalElementFrom [] cs
    else finalElementFrom (cur ++ [c]) cs

/-- The suffix starting at the last dot, reading left to right; `cur = []` means
that no dot has been seen yet.  Empty when there is no dot. -/
def fromLastDotFrom (cur : List Char) : List Char → List Char
  | [] => cur
  | c :: cs =>
    if c = '.' then fromLastDotFrom [c] cs
    else if cur = [] then fromLastDotFrom [] cs
    else fromLastDotFrom (cur ++ [c]) cs

/-- The extension in the words of the specification: the suffix starting at the
last `.` of the final path element, empty when there is none. -/
def specExt (path : String) : String :=
  ⟨fromLastDotFrom [] (finalElementFrom [] path.data)⟩

/-- The classification in the words of the specification: the lowercased
extension is exactly one of `.jpg`, `.jpeg`, `.png`. -/
def specIsImage (filename : String) : Prop :=
  ToLower (specExt filename) = ".jpg" ∨ ToLower (specExt filename) = ".jpeg" ∨
    ToLower (specExt filename) = ".png"

/-! ## `sendImage` -/

/-- What one call of `client.R()...Post(endpointURL)` yields: a transport-level
error (`err != nil`) or a response with a status code. -/
inductive PostResult where
  | transportError
  | status (code : Int)
  deriving DecidableEq, Repr

/-- The environment of one run of `sendImage`: whether `os.Open` succeeds, the
outcome of the `n`-th call of `Post` (counted from 0), and whether `file.Close`
succeeds. -/
structure UnitEnv where
  openOk : Bool
  post : Nat → PostResult
  closeOk : Bool

/-- The effects of `sendImage`, in the order the code performs them.  Reports
are the `fmt.Printf` lines; the error values they print are not modelled. -/
inductive Event where
  /-- Call of `os.Open(filePath)`. -/
  | openFile (filePath : String)
  /-- Report "Failed to open file". -/
  | printOpenFailed (filePath : String)
  /-- One POST of the file to the endpoint. -/
  | post (filePath : String)
  /-- Report "Failed to send image ...: err" (transport error). -/
  | printSendFailed (filePath : String)
  /-- Report "Successfully sent". -/
  | printSuccess (filePath : String)
  /-- Report "Failed to send image ..., received status code ... Retrying...". -/
  | printStatus (filePath : String) (code : Int)
  /-- Call of `time.Sleep` with the duration in seconds. -/
  | sleep (seconds : Nat)
  /-- Report "Failed to send image ... after multiple retries". -/
  | printExhausted (filePath : String)
  /-- Call of `file.Close()`. -/
  | closeFile (filePath : String)
  /-- Report "Failed to close file". -/
  | printCloseFailed (filePath : String)
  /-- Call of `wg.Done()`. -/
  | wgDone
  deriving DecidableEq, Repr

/-- How control leaves the `for retryCount < 4` loop: by one of the `return`
statements in its body, or by the loop condition becoming false (with the value
of `retryCount` at that point). -/
inductive LoopExit where
  | returned
  | fellThrough (retryCount : Nat)
  deriving DecidableEq, Repr

/-- The loop `for retryCount < 4 { ... }` of `sendImage`.  `sent` counts the calls
of `Post` made so far, so that the next call is answered by `post sent`. -/
def retryLoop (filePath : String) (post : Nat → PostResult) (sent retryCount : Nat) :
    List Event × LoopExit :=
  if retryCount < 4 then
    match post sent with
    | PostResult.transportError =>
      ([Event.post filePath, Event.printSendFailed filePath], LoopExit.returned)
    | PostResult.status code =>
      if code = 200 ∨ code = 201 then
        ([Event.post filePath, Event.printSuccess filePath], LoopExit.returned)
      else
        let r := retryLoop filePath post (sent + 1) (retryCount + 1)
        (Event.post filePath :: Event.printStatus filePath code :: Event.sleep 10 :: r.1, r.2)
  else ([], LoopExit.fellThrough retryCount)
termination_by 4 - retryCount

/-- The statement after the loop: `if retryCount >= 4 { report exhausted }`. -/
def afterLoop (filePath : String) : LoopExit → List Event
  | LoopExit.returned => []
  | LoopExit.fellThrough retryCount =>
    if retryCount ≥ 4 then [Event.printExhausted filePath] else []

/-- The deferred closure that closes the file and reports a failed close. -/
def deferredClose (filePath : String) (closeOk : Bool) : List Event :=
  if closeOk then [Event.closeFile filePath]
  else [Event.closeFile filePath, Event.printCloseFailed filePath]

/-- The body of `sendImage` up to its return, without the deferred `wg.Done`:
the open, then either the report of the failed open, or the retry loop, the
statement after it, and the deferred close (which runs at every return that
follows its registration). -/
def sendImageBody (env : UnitEnv) (filePath : String) : List Event :=
  if env.openOk then
    let r := retryLoop filePath env.post 0 0
    Event.openFile filePath :: (r.1 ++ afterLoop filePath r.2 ++ deferredClose filePath env.closeOk)
  else
    [Event.openFile filePath, Event.printOpenFailed filePath]

/-- `sendImage` of `main.go`: the body, then the deferred `wg.Done()`, which was
registered first and therefore runs last.  The client, the endpoint URL and the
(unused) folder path only reach the outside world through `Post`, whose answers
are given by the environment. -/
def sendImage (env : UnitEnv) (filePath : String) : List Event :=
  sendImageBody env filePath ++ [Event.wgDone]

/-! ### Observations on an event list -/

/-- Recognises a POST attempt. -/
def Event.isPost : Event → Bool
  | Event.post _ => true
  | _ => false

/-- Recognises a delay. -/
def Event.isSleep : Event → Bool
  | Event.sleep _ => true
  | _ => false

/-- Recognises a call of `os.Open`. -/
def Event.isOpen : Event → Bool
  | Event.openFile _ => true
  | _ => false

/-- Recognises a call of `file.Close`. -/
def Event.isClose : Event → Bool
  | Event.closeFile _ => true
  | _ => false

/-- The events the retry loop can produce. -/
def Event.inLoop : Event → Bool
  | Event.post _ => true
  | Event.printSendFailed _ => true
  | Event.printSuccess _ => true
  | Event.printStatus _ _ => true
  | Event.sleep _ => true
  | _ => false

/-- Number of POST attempts in an event list. -/
def posts (t : List Event) : Nat := t.countP Event.isPost

/-- Number of delays in an event list. -/
def delays (t : List Event) : Nat := t.countP Event.isSleep

/-- Scan for `postsSpaced`: `slept` says whether a delay of at least `d` seconds
has occurred since the previous POST (or that there was no previous POST). -/
def spacedFrom (d : Nat) (slept : Bool) : List Event → Bool
  | [] => true
  | Event.post _ :: t => slept && spacedFrom d false t
  | Event.sleep n :: t => spacedFrom d (slept || decide (d ≤ n)) t
  | _ :: t => spacedFrom d slept t

/-- Between every two consecutive POST attempts of the list there is a delay of
at least `d` seconds. -/
def postsSpaced (d : Nat) (t : List Event) : Bool := spacedFrom d true t

/-- A response that makes the loop go round again: a status code other than 200
and 201. -/
def PostResult.isOtherStatus : PostResult → Bool
  | PostResult.status code => decide (code ≠ 200 ∧ code ≠ 201)
  | PostResult.transportError => false

/-- A response that ends the unit with success: status code 200 or 201. -/
def PostResult.isSuccess : PostResult → Bool
  | PostResult.status code => decide (code = 200 ∨ code = 201)
  | PostResult.transportError => false

/-- The status code of a response (0 when there is none). -/
def PostResult.code : PostResult → Int
  | PostResult.status code => code
  | PostResult.transportError => 0

/-- The events of `j` consecutive rounds of the loop that each received a status
other than 200 and 201, the first of them answered by `post sent`: a POST, the
report of the status, and the 10-second sleep. -/
def failedRounds (filePath : String) (post : Nat → PostResult) (sent : Nat) : Nat → List Event
  | 0 => []
  | j + 1 =>
    Event.post filePath :: Event.printStatus filePath (post sent).code :: Event.sleep 10 ::
      failedRounds filePath post (sent + 1) j

/-! ## `sendImagesFromFolder` -/

/-- One invocation of the callback that `sendImagesFromFolder` passes to
`filepath.Walk`: the path visited, whether `info.IsDir()` holds, and whether
the traversal step failed (`err != nil`). -/
structure WalkEntry where
  path : String
  isDir : Bool
  failed : Bool
  deriving DecidableEq, Repr

/-- The effects of the main flow of `sendImagesFromFolder`, in program order. -/
inductive MainEvent where
  /-- Report "Failed to read file" (the warning for an entry that could not
  be read). -/
  | printReadFailed (path : String)
  /-- Call of `wg.Add(delta)`. -/
  | wgAdd (delta : Nat)
  /-- Statement `go sendImage(client, folderPath, endpointURL, path, &wg)`. -/
  | go (filePath : String)
  /-- Report "Error walking the directory". -/
  | printWalkError
  /-- Call of `wg.Wait()`. -/
  | wgWait
  deriving DecidableEq, Repr

/-- The callback passed to `filepath.Walk`: its effects, and whether it returns
a non-nil error. -/
def walkFn (e : WalkEntry) : List MainEvent × Bool :=
  if e.failed then ([MainEvent.printReadFailed e.path], false)
  else if e.isDir || !isImage e.path then ([], false)
  else ([MainEvent.wgAdd 1, MainEvent.go e.path], false)

/-- `filepath.Walk` over the entries it visits: the callback is invoked on each
entry in turn, and the walk stops and returns the error as soon as the callback
returns one. -/
def Walk (fn : WalkEntry → List MainEvent × Bool) : List WalkEntry → List MainEvent × Bool
  | [] => ([], false)
  | e :: es =>
    if (fn e).2 then ((fn e).1, true)
    else ((fn e).1 ++ (Walk fn es).1, (Walk fn es).2)

/-- The main flow of `sendImagesFromFolder`, on the entries that `filepath.Walk`
visits under `folderPath`: the walk, the report of a walk error if there is one,
and `wg.Wait()`.  (`resty.New()` has no effect that is observed here.) -/
def sendImagesFromFolder (entries : List WalkEntry) : List MainEvent :=
  (Walk walkFn entries).1 ++
    (if (Walk walkFn entries).2 then [MainEvent.printWalkError] else []) ++
    [MainEvent.wgWait]

/-- The paths for which a unit is started, in program order. -/
def dispatched (prog : List MainEvent) : List String :=
  prog.filterMap fun
    | MainEvent.go p => some p
    | _ => none

/-- The paths for which a read warning is reported, in program order. -/
def warnings (prog : List MainEvent) : List String :=
  prog.filterMap fun
    | MainEvent.printReadFailed p => some p
    | _ => none

/-- The entries that the specification makes eligible for an upload unit: read
without error, not a directory, and with an image extension. -/
def eligible (e : WalkEntry) : Bool := !e.failed && !e.isDir && isImage e.path

/-- Every unit is registered right before it is started: each `wg.Add` adds 1
and is immediately followed by a `go`, no `go` occurs without it, and `wg.Wait`
is the last statement. -/
def registersBeforeStart : List MainEvent → Bool
  | [MainEvent.wgWait] => true
  | MainEvent.printReadFailed _ :: rest => registersBeforeStart rest
  | MainEvent.wgAdd 1 :: MainEvent.go _ :: rest => registersBeforeStart rest
  | _ => false

/-- Number of registrations with the barrier. -/
def registrations (prog : List MainEvent) : Nat :=
  prog.countP fun
    | MainEvent.wgAdd _ => true
    | _ => false

/-! ### The units running concurrently with the main flow -/

/-- One dispatched unit: the events it has performed and those it still has to
perform.  The unit has reached a terminal state when `todo` is empty. -/
structure UnitState where
  filePath : String
  done : List Event
  todo : List Event

/-- The state of a run of `sendImagesFromFolder`: what the main flow still has
to do (`[]` once `sendImagesFromFolder` has returned), the counter of the wait
group, and the units dispatched so far. -/
structure SysState where
  main : List MainEvent
  wg : Nat
  units : List UnitState

/-- Who takes the next step: the main flow or the `i`-th dispatched unit. -/
inductive Actor where
  | main
  | unit (i : Nat)
  deriving DecidableEq, Repr

/-- A unit that has not reached a terminal state. -/
def UnitState.running (u : UnitState) : Bool := !u.todo.isEmpty

/-- One step of the chosen actor; `none` when that actor cannot take a step:
it has finished, it is blocked in `wg.Wait()` because the counter is not 0, or
the unit does not exist.  `go` starts a unit whose behaviour is `sendImage` in
the environment of its path; `wg.Add` and `wg.Done` update the counter (a
`wg.Done` at counter 0 is no step: Go panics there). -/
def step (envOf : String → UnitEnv) (s : SysState) : Actor → Option SysState
  | Actor.main =>
    match s.main with
    | [] => none
    | MainEvent.printReadFailed _ :: rest => some ⟨rest, s.wg, s.units⟩
    | MainEvent.wgAdd delta :: rest => some ⟨rest, s.wg + delta, s.units⟩
    | MainEvent.go p :: rest =>
      some ⟨rest, s.wg, s.units ++ [⟨p, [], sendImage (envOf p) p⟩]⟩
    | MainEvent.printWalkError :: rest => some ⟨rest, s.wg, s.units⟩
    | MainEvent.wgWait :: rest => if s.wg = 0 then some ⟨rest, s.wg, s.units⟩ else none
  | Actor.unit i =>
    match s.units[i]? with
    | none => none
    | some u =>
      match u.todo with
      | [] => none
      | e :: rest =>
        if e = Event.wgDone then
          if s.wg = 0 then none
          else some ⟨s.main, s.wg - 1, s.units.set i ⟨u.filePath, u.done ++ [e], rest⟩⟩
        else some ⟨s.main, s.wg, s.units.set i ⟨u.filePath, u.done ++ [e], rest⟩⟩

/-- The state reached by letting the actors of the schedule step in turn;
`none` when the schedule asks for a step that cannot be taken. -/
def run (envOf : String → UnitEnv) : SysState → List Actor → Option SysState
  | s, [] => some s
  | s, a :: schedule =>
    match step envOf s a with
    | none => none
    | some s1 => run envOf s1 schedule

/-- The state in which `sendImagesFromFolder` is called: the whole main flow is
still to do, the counter is 0 and no unit exists. -/
def initialState (entries : List WalkEntry) : SysState :=
  ⟨sendImagesFromFolder entries, 0, []⟩

/-- Number of registrations made by the main flow for a unit that it has not
started yet: 1 between `wg.Add(1)` and the `go` statement, 0 elsewhere. -/
def pendingGo : List MainEvent → Nat
  | MainEvent.go _ :: _ => 1
  | _ => 0

/-- What remains of the main flow: nothing, or a well-formed remainder, or a
`go` whose registration has just been made, followed by one. -/
def mainShape (m : List MainEvent) : Prop :=
  m = [] ∨ registersBeforeStart m = true ∨
    ∃ p rest, m = MainEvent.go p :: rest ∧ registersBeforeStart rest = true

/-- The invariant of the runs of `sendImagesFromFolder`; `paths` are the paths
that the whole main flow dispatches. -/
structure Invariant (envOf : String → UnitEnv) (paths : List String) (s : SysState) :
    Prop where
  /-- The remainder of the main flow is well formed. -/
  shape : mainShape s.main
  /-- The counter is the number of running units, plus the pending registration. -/
  counter : s.wg = pendingGo s.main + s.units.countP UnitState.running
  /-- Every unit follows the trace of `sendImage` for its path. -/
  traces : ∀ u ∈ s.units, u.done ++ u.todo = sendImage (envOf u.filePath) u.filePath
  /-- The units started so far and those still to start are the dispatched paths. -/
  paths : s.units.map UnitState.filePath ++ dispatched s.main = paths
  /-- Once the main flow has returned no unit is running. -/
  returned : s.main = [] → s.units.countP UnitState.running = 0

/-! ## Theorems -/

/-! ### `isImage` -/

/-- The accumulator of the backward scan is only ever appended to the result. -/
theorem extScan_acc (rev : List Char) :
    ∀ acc, extScan rev acc = if extScan rev [] = [] then [] else extScan rev [] ++ acc := by
  induction rev with
  | nil => intro acc; simp [extScan]
  | cons c rest ih =>
    intro acc
    by_cases hs : IsPathSeparator c = true
    · simp [extScan, hs]
    · by_cases hd : c = '.'
      · subst hd
        simp at hs
        simp [extScan, hs]
      · simp only [extScan, hs, hd, if_false, Bool.false_eq_true]
        rw [ih (c :: acc), ih [c]]
        by_cases he : extScan rest [] = []
        · simp [he]
        · simp [he]

/-- The backward scan of a path extended by one character. -/
theorem extScan_snoc (q : List Char) (c : Char) :
    extScan (q ++ [c]).reverse [] =
      if IsPathSeparator c = true then []
      else if c = '.' then [c]
      else if extScan q.reverse [] = [] then [] else extScan q.reverse [] ++ [c] := by
  rw [List.reverse_append, List.reverse_singleton, List.singleton_append]
  by_cases hs : IsPathSeparator c = true
  · simp [extScan, hs]
  · by_cases hd : c = '.'
    · subst hd
      simp at hs
      simp [extScan, hs]
    · simp only [extScan, hs, hd, if_false, Bool.false_eq_true]
      exact extScan_acc q.reverse [c]

theorem finalElementFrom_snoc (q : List Char) (c : Char) :
    ∀ cur, finalElementFrom cur (q ++ [c]) =
      if IsPathSeparator c = true then [] else finalElementFrom cur q ++ [c] := by
  induction q with
  | nil =>
    intro cur
    by_cases hs : IsPathSeparator c = true <;> simp [finalElementFrom, hs]
  | cons d q ih =>
    intro cur
    by_cases hd : IsPathSeparator d = true
    · simp only [List.cons_append, finalElementFrom, hd, if_true]; exact ih []
    · simp only [List.cons_append, finalElementFrom, hd, if_false, Bool.false_eq_true]
      exact ih (cur ++ [d])

theorem fromLastDotFrom_snoc (q : List Char) (c : Char) :
    ∀ cur, fromLastDotFrom cur (q ++ [c]) =
      if c = '.' then [c]
      else if fromLastDotFrom cur q = [] then [] else fromLastDotFrom cur q ++ [c] := by
  induction q with
  | nil =>
    intro cur
    by_cases hc : c = '.'
    · simp [fromLastDotFrom, hc]
    · by_cases he : cur = [] <;> simp [fromLastDotFrom, hc, he]
  | cons d q ih =>
    intro cur
    by_cases hd : d = '.'
    · simp only [List.cons_append, fromLastDotFrom, hd, if_true]; exact ih _
    · by_cases he : cur = []
      · simp only [List.cons_append, fromLastDotFrom, hd, he, if_true, if_false]; exact ih _
      · simp only [List.cons_append, fromLastDotFrom, hd, he, if_false]; exact ih _

/-- The backward scan of `filepath.Ext` computes the suffix that starts at the
last dot of the final path element. -/
theorem extScan_eq_spec (p : List Char) :
    extScan p.reverse [] = fromLastDotFrom [] (finalElementFrom [] p) := by
  induction p using List.reverseRecOn with
  | nil => simp [extScan, finalElementFrom, fromLastDotFrom]
  | append_singleton q c ih =>
    rw [extScan_snoc, finalElementFrom_snoc]
    by_cases hs : IsPathSeparator c = true
    · simp [hs, fromLastDotFrom]
    · simp only [hs, if_false, Bool.false_eq_true]
      rw [fromLastDotFrom_snoc, ih]

theorem Ext_eq_specExt (path : String) : Ext path = specExt path := by
  simp only [Ext, specExt, extScan_eq_spec]

/-- C5 (filter correctness).  `isImage` is true exactly when the lowercased
extension, in the words of the specification (the suffix starting at the last
dot of the final path element, empty when there is none), is one of `.jpg`,
`.jpeg`, `.png`; the five file names of the specification are classified as it
says. -/
theorem isImage_iff_spec :
    (∀ filename : String, isImage filename = true ↔ specIsImage filename) ∧
    isImage "Photo.JPG" = true ∧ isImage "image.png" = true ∧
    isImage "doc.pdf" = false ∧ isImage "noextension" = false ∧
    isImage "archive.tar.gz" = false := by
  refine ⟨?_, by decide, by decide, by decide, by decide, by decide⟩
  intro filename
  simp only [isImage, specIsImage, Ext_eq_specExt, Bool.or_eq_true, beq_iff_eq, or_assoc]

/-! ### The retry loop -/

theorem retryLoop_inLoop (filePath : String) (post : Nat → PostResult) (sent retryCount : Nat) :
    ∀ e ∈ (retryLoop filePath post sent retryCount).1, e.inLoop = true := by
  induction sent, retryCount using retryLoop.induct filePath post with
  | case1 sent retryCount hlt hp =>
    rw [retryLoop]; simp [hlt, hp, Event.inLoop]
  | case2 sent retryCount hlt code hp hc =>
    rw [retryLoop]; simp [hlt, hp, hc, Event.inLoop]
  | case3 sent retryCount hlt code hp hc ih =>
    rw [retryLoop]; simp only [hlt, hp, hc, if_true, if_false]
    intro e he
    simp at he
    rcases he with rfl | rfl | rfl | he
    · rfl
    · rfl
    · rfl
    · exact ih e he
  | case4 sent retryCount hlt =>
    rw [retryLoop]; simp [hlt]

theorem isOtherStatus_iff (r : PostResult) :
    r.isOtherStatus = true ↔ ∃ code, r = PostResult.status code ∧ code ≠ 200 ∧ code ≠ 201 := by
  cases r with
  | transportError => simp [PostResult.isOtherStatus]
  | status code => simp [PostResult.isOtherStatus]

theorem isSuccess_iff (r : PostResult) :
    r.isSuccess = true ↔ ∃ code, r = PostResult.status code ∧ (code = 200 ∨ code = 201) := by
  cases r with
  | transportError => simp [PostResult.isSuccess]
  | status code => simp [PostResult.isSuccess]

/-- One round of the loop on a status other than 200 and 201. -/
theorem retryLoop_other (filePath : String) (post : Nat → PostResult) (sent retryCount : Nat)
    (code : Int) (hlt : retryCount < 4) (hp : post sent = PostResult.status code)
    (h200 : code ≠ 200) (h201 : code ≠ 201) :
    retryLoop filePath post sent retryCount =
      (Event.post filePath :: Event.printStatus filePath code :: Event.sleep 10 ::
          (retryLoop filePath post (sent + 1) (retryCount + 1)).1,
        (retryLoop filePath post (sent + 1) (retryCount + 1)).2) := by
  rw [retryLoop]; simp [hlt, hp, h200, h201]

/-- The round of the loop that receives status 200 or 201. -/
theorem retryLoop_success (filePath : String) (post : Nat → PostResult) (sent retryCount : Nat)
    (code : Int) (hlt : retryCount < 4) (hp : post sent = PostResult.status code)
    (hc : code = 200 ∨ code = 201) :
    retryLoop filePath post sent retryCount =
      ([Event.post filePath, Event.printSuccess filePath], LoopExit.returned) := by
  rw [retryLoop]; simp [hlt, hp, hc]

/-- The round of the loop whose POST fails at the transport level. -/
theorem retryLoop_transport (filePath : String) (post : Nat → PostResult) (sent retryCount : Nat)
    (hlt : retryCount < 4) (hp : post sent = PostResult.transportError) :
    retryLoop filePath post sent retryCount =
      ([Event.post filePath, Event.printSendFailed filePath], LoopExit.returned) := by
  rw [retryLoop]; simp [hlt, hp]

/-- The loop condition fails once `retryCount` has reached 4. -/
theorem retryLoop_exit (filePath : String) (post : Nat → PostResult) (sent retryCount : Nat)
    (hge : 4 ≤ retryCount) :
    retryLoop filePath post sent retryCount = ([], LoopExit.fellThrough retryCount) := by
  rw [retryLoop]; simp [Nat.not_lt.mpr hge]

/-- The trace of `sendImage` when the open succeeds and every response carries
a status other than 200 and 201. -/
theorem sendImage_all_other (env : UnitEnv) (filePath : String) (hopen : env.openOk = true)
    (c0 c1 c2 c3 : Int)
    (h0 : env.post 0 = PostResult.status c0) (h1 : env.post 1 = PostResult.status c1)
    (h2 : env.post 2 = PostResult.status c2) (h3 : env.post 3 = PostResult.status c3)
    (n0 : c0 ≠ 200 ∧ c0 ≠ 201) (n1 : c1 ≠ 200 ∧ c1 ≠ 201)
    (n2 : c2 ≠ 200 ∧ c2 ≠ 201) (n3 : c3 ≠ 200 ∧ c3 ≠ 201) :
    sendImage env filePath =
      [Event.openFile filePath,
        Event.post filePath, Event.printStatus filePath c0, Event.sleep 10,
        Event.post filePath, Event.printStatus filePath c1, Event.sleep 10,
        Event.post filePath, Event.printStatus filePath c2, Event.sleep 10,
        Event.post filePath, Event.printStatus filePath c3, Event.sleep 10,
        Event.printExhausted filePath] ++ deferredClose filePath env.closeOk ++ [Event.wgDone] := by
  have e3 := retryLoop_other filePath env.post 3 3 c3 (by decide) h3 n3.1 n3.2
  have e2 := retryLoop_other filePath env.post 2 2 c2 (by decide) h2 n2.1 n2.2
  have e1 := retryLoop_other filePath env.post 1 1 c1 (by decide) h1 n1.1 n1.2
  have e0 := retryLoop_other filePath env.post 0 0 c0 (by decide) h0 n0.1 n0.2
  have e4 := retryLoop_exit filePath env.post 4 4 (le_refl 4)
  simp only [Nat.reduceAdd] at e0 e1 e2 e3
  rw [e4] at e3; rw [e3] at e2; rw [e2] at e1; rw [e1] at e0
  simp [sendImage, sendImageBody, hopen, e0, afterLoop]

theorem retryLoop_sleep_eq (filePath : String) (post : Nat → PostResult) (sent retryCount : Nat) :
    ∀ e ∈ (retryLoop filePath post sent retryCount).1, e.isSleep = true → e = Event.sleep 10 := by
  induction sent, retryCount using retryLoop.induct filePath post with
  | case1 sent retryCount hlt hp =>
    rw [retryLoop]; simp [hlt, hp, Event.isSleep]
  | case2 sent retryCount hlt code hp hc =>
    rw [retryLoop]; simp [hlt, hp, hc, Event.isSleep]
  | case3 sent retryCount hlt code hp hc ih =>
    rw [retryLoop]; simp only [hlt, hp, hc, if_true, if_false]
    intro e he hs
    simp at he
    rcases he with rfl | rfl | rfl | he
    · simp [Event.isSleep] at hs
    · simp [Event.isSleep] at hs
    · rfl
    · exact ih e he hs
  | case4 sent retryCount hlt =>
    rw [retryLoop]; simp [hlt]

/-- Every delay of a run of `sendImage` is the 10-second one. -/
theorem sendImage_sleep_eq (env : UnitEnv) (filePath : String) :
    ∀ e ∈ sendImage env filePath, e.isSleep = true → e = Event.sleep 10 := by
  intro e he hs
  cases ho : env.openOk with
  | false =>
    simp [sendImage, sendImageBody, ho] at he
    rcases he with rfl | rfl | rfl <;> simp [Event.isSleep] at hs
  | true =>
    simp only [sendImage, sendImageBody, ho, if_true, List.mem_append, List.mem_cons,
      List.mem_singleton] at he
    rcases he with (rfl | (he | he) | he) | he
    · simp [Event.isSleep] at hs
    · exact retryLoop_sleep_eq filePath env.post 0 0 e he hs
    · cases hx : (retryLoop filePath env.post 0 0).2 with
      | returned => simp [hx, afterLoop] at he
      | fellThrough rc =>
        simp only [hx, afterLoop] at he
        split at he
        · simp at he; subst he; simp [Event.isSleep] at hs
        · simp at he
    · cases hc : env.closeOk <;> simp [hc, deferredClose] at he
      · rcases he with rfl | rfl <;> simp [Event.isSleep] at hs
      · subst he; simp [Event.isSleep] at hs
    · simp at he; subst he; simp [Event.isSleep] at hs

theorem posts_deferredClose (filePath : String) (closeOk : Bool) :
    posts (deferredClose filePath closeOk) = 0 := by
  cases closeOk <;> simp [deferredClose, posts, Event.isPost]

theorem delays_deferredClose (filePath : String) (closeOk : Bool) :
    delays (deferredClose filePath closeOk) = 0 := by
  cases closeOk <;> simp [deferredClose, delays, Event.isSleep]

theorem spacedFrom_deferredClose (d : Nat) (slept : Bool) (filePath : String) (closeOk : Bool)
    (rest : List Event) :
    spacedFrom d slept (deferredClose filePath closeOk ++ rest) = spacedFrom d slept rest := by
  cases closeOk <;> simp [deferredClose, spacedFrom]

/-- C1 (retry bound).  When the file opens and every response carries a status
other than 200 and 201, `sendImage` makes exactly 4 POST attempts (so never a
fifth), consecutive attempts are separated by a delay of 10 seconds (every delay
of the run is the 10-second one), and the report of exhausted retries is made
once, after all four attempts. -/
theorem sendImage_retry_bound (env : UnitEnv) (filePath : String)
    (hopen : env.openOk = true) (hresp : ∀ i, (env.post i).isOtherStatus = true) :
    posts (sendImage env filePath) = 4 ∧
    postsSpaced 10 (sendImage env filePath) = true ∧
    (∀ e ∈ sendImage env filePath, e.isSleep = true → e = Event.sleep 10) ∧
    (sendImage env filePath).count (Event.printExhausted filePath) = 1 ∧
    ∃ pre suf, sendImage env filePath = pre ++ Event.printExhausted filePath :: suf ∧
      posts pre = 4 ∧ posts suf = 0 := by
  obtain ⟨c0, h0, n0⟩ := (isOtherStatus_iff _).mp (hresp 0)
  obtain ⟨c1, h1, n1⟩ := (isOtherStatus_iff _).mp (hresp 1)
  obtain ⟨c2, h2, n2⟩ := (isOtherStatus_iff _).mp (hresp 2)
  obtain ⟨c3, h3, n3⟩ := (isOtherStatus_iff _).mp (hresp 3)
  have ht := sendImage_all_other env filePath hopen c0 c1 c2 c3 h0 h1 h2 h3 n0 n1 n2 n3
  refine ⟨?_, ?_, ?_, ?_, ?_⟩
  · rw [ht]
    have := posts_deferredClose filePath env.closeOk
    simp only [posts] at this ⊢
    simp [List.countP_append, List.countP_cons, Event.isPost, this]
  · rw [ht]
    simp [postsSpaced, spacedFrom, spacedFrom_deferredClose]
  · exact sendImage_sleep_eq env filePath
  · rw [ht]
    cases hc : env.closeOk <;> simp [hc, deferredClose, List.count_cons]
  · refine ⟨[Event.openFile filePath,
        Event.post filePath, Event.printStatus filePath c0, Event.sleep 10,
        Event.post filePath, Event.printStatus filePath c1, Event.sleep 10,
        Event.post filePath, Event.printStatus filePath c2, Event.sleep 10,
        Event.post filePath, Event.printStatus filePath c3, Event.sleep 10],
      deferredClose filePath env.closeOk ++ [Event.wgDone], ?_, ?_, ?_⟩
    · rw [ht]; simp
    · simp [posts, List.countP_cons, Event.isPost]
    · have := posts_deferredClose filePath env.closeOk
      simp only [posts] at this ⊢
      simp [List.countP_append, Event.isPost, this]

/-- After `j` rounds that each received a status other than 200 and 201, the loop
continues from the state with both counters advanced by `j`. -/
theorem retryLoop_failedRounds (filePath : String) (post : Nat → PostResult) (j : Nat) :
    ∀ sent retryCount, retryCount + j ≤ 4 →
      (∀ i, i < j → (post (sent + i)).isOtherStatus = true) →
      retryLoop filePath post sent retryCount =
        (failedRounds filePath post sent j ++
            (retryLoop filePath post (sent + j) (retryCount + j)).1,
          (retryLoop filePath post (sent + j) (retryCount + j)).2) := by
  induction j with
  | zero => intro sent retryCount _ _; simp [failedRounds]
  | succ j ih =>
    intro sent retryCount hle hall
    obtain ⟨code, hp, h200, h201⟩ := (isOtherStatus_iff _).mp (hall 0 (Nat.succ_pos j))
    rw [Nat.add_zero] at hp
    have hrest : ∀ i, i < j → (post (sent + 1 + i)).isOtherStatus = true := by
      intro i hi
      have := hall (i + 1) (Nat.succ_lt_succ hi)
      rwa [show sent + (i + 1) = sent + 1 + i by omega] at this
    rw [retryLoop_other filePath post sent retryCount code (by omega) hp h200 h201,
      ih (sent + 1) (retryCount + 1) (by omega) hrest]
    have e1 : sent + 1 + j = sent + (j + 1) := by omega
    have e2 : retryCount + 1 + j = retryCount + (j + 1) := by omega
    simp [failedRounds, hp, PostResult.code, e1, e2]

theorem posts_failedRounds (filePath : String) (post : Nat → PostResult) (j : Nat) :
    ∀ sent, posts (failedRounds filePath post sent j) = j := by
  induction j with
  | zero => intro sent; simp [failedRounds, posts]
  | succ j ih =>
    intro sent
    have := ih (sent + 1)
    simp only [posts] at this ⊢
    simp [failedRounds, List.countP_cons, Event.isPost, this]

theorem delays_failedRounds (filePath : String) (post : Nat → PostResult) (j : Nat) :
    ∀ sent, delays (failedRounds filePath post sent j) = j := by
  induction j with
  | zero => intro sent; simp [failedRounds, delays]
  | succ j ih =>
    intro sent
    have := ih (sent + 1)
    simp only [delays] at this ⊢
    simp [failedRounds, List.countP_cons, Event.isSleep, this]

/-- The rounds that failed with a status report neither success, nor a transport
failure, nor exhausted retries. -/
theorem mem_failedRounds (filePath : String) (post : Nat → PostResult) (j : Nat) :
    ∀ sent, ∀ e ∈ failedRounds filePath post sent j,
      e = Event.post filePath ∨ (∃ code, e = Event.printStatus filePath code) ∨
        e = Event.sleep 10 := by
  induction j with
  | zero => intro sent e he; simp [failedRounds] at he
  | succ j ih =>
    intro sent e he
    simp only [failedRounds, List.mem_cons] at he
    rcases he with rfl | rfl | rfl | he
    · exact Or.inl rfl
    · exact Or.inr (Or.inl ⟨_, rfl⟩)
    · exact Or.inr (Or.inr rfl)
    · exact ih (sent + 1) e he

/-- The trace of `sendImage` when the open succeeds, the first `k - 1` responses
carry a status other than 200 and 201, and the `k`-th response carries 200 or
201. -/
theorem sendImage_success_trace (env : UnitEnv) (filePath : String) (k : Nat)
    (hk1 : 1 ≤ k) (hk4 : k ≤ 4) (hopen : env.openOk = true)
    (hprev : ∀ i, i + 1 < k → (env.post i).isOtherStatus = true)
    (hk : (env.post (k - 1)).isSuccess = true) :
    sendImage env filePath =
      Event.openFile filePath :: (failedRounds filePath env.post 0 (k - 1) ++
        [Event.post filePath, Event.printSuccess filePath] ++
        deferredClose filePath env.closeOk ++ [Event.wgDone]) := by
  obtain ⟨code, hp, hc⟩ := (isSuccess_iff _).mp hk
  have h1 := retryLoop_failedRounds filePath env.post (k - 1) 0 0 (by omega)
    (by intro i hi; rw [Nat.zero_add]; exact hprev i (by omega))
  rw [Nat.zero_add] at h1
  rw [retryLoop_success filePath env.post (k - 1) (k - 1) code (by omega) hp hc] at h1
  simp [sendImage, sendImageBody, hopen, h1, afterLoop]

/-- The trace of `sendImage` when the open succeeds, the first `k - 1` responses
carry a status other than 200 and 201, and the `k`-th POST fails at the transport
level. -/
theorem sendImage_transport_trace (env : UnitEnv) (filePath : String) (k : Nat)
    (hk1 : 1 ≤ k) (hk4 : k ≤ 4) (hopen : env.openOk = true)
    (hprev : ∀ i, i + 1 < k → (env.post i).isOtherStatus = true)
    (hk : env.post (k - 1) = PostResult.transportError) :
    sendImage env filePath =
      Event.openFile filePath :: (failedRounds filePath env.post 0 (k - 1) ++
        [Event.post filePath, Event.printSendFailed filePath] ++
        deferredClose filePath env.closeOk ++ [Event.wgDone]) := by
  have h1 := retryLoop_failedRounds filePath env.post (k - 1) 0 0 (by omega)
    (by intro i hi; rw [Nat.zero_add]; exact hprev i (by omega))
  rw [Nat.zero_add] at h1
  rw [retryLoop_transport filePath env.post (k - 1) (k - 1) (by omega) hk] at h1
  simp [sendImage, sendImageBody, hopen, h1, afterLoop]

theorem count_failedRounds_zero (filePath : String) (post : Nat → PostResult) (sent j : Nat)
    (e : Event) (h1 : e ≠ Event.post filePath) (h2 : ∀ code, e ≠ Event.printStatus filePath code)
    (h3 : e ≠ Event.sleep 10) : (failedRounds filePath post sent j).count e = 0 := by
  rw [List.count_eq_zero]
  intro hmem
  rcases mem_failedRounds filePath post j sent e hmem with h | ⟨code, h⟩ | h
  · exact h1 h
  · exact h2 code h
  · exact h3 h

theorem count_deferredClose_zero (filePath : String) (closeOk : Bool) (e : Event)
    (h1 : e ≠ Event.closeFile filePath) (h2 : e ≠ Event.printCloseFailed filePath) :
    (deferredClose filePath closeOk).count e = 0 := by
  rw [List.count_eq_zero]
  cases closeOk <;> simp [deferredClose, h1, h2]

/-- C2 (success short-circuit).  When the file opens, the first `k - 1` responses
(`1 ≤ k ≤ 4`) carry a status other than 200 and 201 and the `k`-th carries 200 or
201, `sendImage` makes exactly `k` POST attempts, reports success (once, right
after the `k`-th attempt, with no attempt after it) and does not report exhausted
retries. -/
theorem sendImage_success_short_circuit (env : UnitEnv) (filePath : String) (k : Nat)
    (hk1 : 1 ≤ k) (hk4 : k ≤ 4) (hopen : env.openOk = true)
    (hprev : ∀ i, i + 1 < k → (env.post i).isOtherStatus = true)
    (hk : (env.post (k - 1)).isSuccess = true) :
    posts (sendImage env filePath) = k ∧
    (sendImage env filePath).count (Event.printSuccess filePath) = 1 ∧
    (sendImage env filePath).count (Event.printExhausted filePath) = 0 ∧
    ∃ pre suf, sendImage env filePath =
        pre ++ Event.post filePath :: Event.printSuccess filePath :: suf ∧
      posts pre = k - 1 ∧ posts suf = 0 := by
  have ht := sendImage_success_trace env filePath k hk1 hk4 hopen hprev hk
  have hpf := posts_failedRounds filePath env.post (k - 1) 0
  have hpc := posts_deferredClose filePath env.closeOk
  refine ⟨?_, ?_, ?_, ?_⟩
  · rw [ht]
    simp only [posts] at hpf hpc ⊢
    simp [List.countP_append, List.countP_cons, Event.isPost, hpf, hpc]
    omega
  · rw [ht]
    simp [List.count_cons, List.count_append,
      count_failedRounds_zero filePath env.post 0 (k - 1) (Event.printSuccess filePath),
      count_deferredClose_zero filePath env.closeOk (Event.printSuccess filePath)]
  · rw [ht]
    simp [List.count_cons, List.count_append,
      count_failedRounds_zero filePath env.post 0 (k - 1) (Event.printExhausted filePath),
      count_deferredClose_zero filePath env.closeOk (Event.printExhausted filePath)]
  · refine ⟨Event.openFile filePath :: failedRounds filePath env.post 0 (k - 1),
      deferredClose filePath env.closeOk ++ [Event.wgDone], ?_, ?_, ?_⟩
    · rw [ht]; simp
    · simp only [posts] at hpf ⊢
      simp [List.countP_cons, Event.isPost, hpf]
    · simp only [posts] at hpc ⊢
      simp [List.countP_append, Event.isPost, hpc]

/-- Witness for C2: a 201 on the first attempt (`k = 1`), and a 500 followed by a
200 (`k = 2`). -/
theorem sendImage_success_short_circuit_witness :
    (posts (sendImage ⟨true, fun _ => PostResult.status 201, true⟩ "a.jpg") = 1 ∧
      (sendImage ⟨true, fun _ => PostResult.status 201, true⟩ "a.jpg").count
        (Event.printSuccess "a.jpg") = 1 ∧
      (sendImage ⟨true, fun _ => PostResult.status 201, true⟩ "a.jpg").count
        (Event.printExhausted "a.jpg") = 0 ∧
      ∃ pre suf, sendImage ⟨true, fun _ => PostResult.status 201, true⟩ "a.jpg" =
          pre ++ Event.post "a.jpg" :: Event.printSuccess "a.jpg" :: suf ∧
        posts pre = 1 - 1 ∧ posts suf = 0) ∧
    (posts (sendImage ⟨true, fun i => PostResult.status (if i = 0 then 500 else 200), false⟩
        "b.png") = 2 ∧
      (sendImage ⟨true, fun i => PostResult.status (if i = 0 then 500 else 200), false⟩
        "b.png").count (Event.printSuccess "b.png") = 1 ∧
      (sendImage ⟨true, fun i => PostResult.status (if i = 0 then 500 else 200), false⟩
        "b.png").count (Event.printExhausted "b.png") = 0 ∧
      ∃ pre suf,
        sendImage ⟨true, fun i => PostResult.status (if i = 0 then 500 else 200), false⟩
          "b.png" = pre ++ Event.post "b.png" :: Event.printSuccess "b.png" :: suf ∧
        posts pre = 2 - 1 ∧ posts suf = 0) :=
  ⟨sendImage_success_short_circuit ⟨true, fun _ => PostResult.status 201, true⟩ "a.jpg" 1
      (by decide) (by decide) rfl (by intro i hi; omega) (by decide),
    sendImage_success_short_circuit
      ⟨true, fun i => PostResult.status (if i = 0 then 500 else 200), false⟩ "b.png" 2
      (by decide) (by decide) rfl
      (by intro i hi; have h0 : i = 0 := by omega
          subst h0; decide)
      (by decide)⟩

/-- C3 (transport errors are fatal).  When the file opens, the first `k - 1`
responses (`1 ≤ k ≤ 4`) carry a status other than 200 and 201 and the `k`-th POST
fails at the transport level, `sendImage` makes exactly `k` POST attempts, reports
the send failure once, right after the `k`-th attempt, performs neither a POST
nor a delay after it, and reports neither success nor exhausted retries. -/
theorem sendImage_transport_fatal (env : UnitEnv) (filePath : String) (k : Nat)
    (hk1 : 1 ≤ k) (hk4 : k ≤ 4) (hopen : env.openOk = true)
    (hprev : ∀ i, i + 1 < k → (env.post i).isOtherStatus = true)
    (hk : env.post (k - 1) = PostResult.transportError) :
    posts (sendImage env filePath) = k ∧
    (sendImage env filePath).count (Event.printSendFailed filePath) = 1 ∧
    (sendImage env filePath).count (Event.printSuccess filePath) = 0 ∧
    (sendImage env filePath).count (Event.printExhausted filePath) = 0 ∧
    ∃ pre suf, sendImage env filePath =
        pre ++ Event.post filePath :: Event.printSendFailed filePath :: suf ∧
      posts pre = k - 1 ∧ posts suf = 0 ∧ delays suf = 0 := by
  have ht := sendImage_transport_trace env filePath k hk1 hk4 hopen hprev hk
  have hpf := posts_failedRounds filePath env.post (k - 1) 0
  have hpc := posts_deferredClose filePath env.closeOk
  have hdc := delays_deferredClose filePath env.closeOk
  refine ⟨?_, ?_, ?_, ?_, ?_⟩
  · rw [ht]
    simp only [posts] at hpf hpc ⊢
    simp [List.countP_append, List.countP_cons, Event.isPost, hpf, hpc]
    omega
  · rw [ht]
    simp [List.count_cons, List.count_append,
      count_failedRounds_zero filePath env.post 0 (k - 1) (Event.printSendFailed filePath),
      count_deferredClose_zero filePath env.closeOk (Event.printSendFailed filePath)]
  · rw [ht]
    simp [List.count_cons, List.count_append,
      count_failedRounds_zero filePath env.post 0 (k - 1) (Event.printSuccess filePath),
      count_deferredClose_zero filePath env.closeOk (Event.printSuccess filePath)]
  · rw [ht]
    simp [List.count_cons, List.count_append,
      count_failedRounds_zero filePath env.post 0 (k - 1) (Event.printExhausted filePath),
      count_deferredClose_zero filePath env.closeOk (Event.printExhausted filePath)]
  · refine ⟨Event.openFile filePath :: failedRounds filePath env.post 0 (k - 1),
      deferredClose filePath env.closeOk ++ [Event.wgDone], ?_, ?_, ?_, ?_⟩
    · rw [ht]; simp
    · simp only [posts] at hpf ⊢
      simp [List.countP_cons, Event.isPost, hpf]
    · simp only [posts] at hpc ⊢
      simp [List.countP_append, Event.isPost, hpc]
    · simp only [delays] at hdc ⊢
      simp [List.countP_append, Event.isSleep, hdc]

/-- Witness for C3: two responses with status 500, then a transport error on the
third attempt. -/
theorem sendImage_transport_fatal_witness :
    posts (sendImage ⟨true, fun i => if i < 2 then PostResult.status 500
        else PostResult.transportError, true⟩ "a.jpg") = 3 ∧
    (sendImage ⟨true, fun i => if i < 2 then PostResult.status 500
        else PostResult.transportError, true⟩ "a.jpg").count
      (Event.printSendFailed "a.jpg") = 1 ∧
    (sendImage ⟨true, fun i => if i < 2 then PostResult.status 500
        else PostResult.transportError, true⟩ "a.jpg").count
      (Event.printSuccess "a.jpg") = 0 ∧
    (sendImage ⟨true, fun i => if i < 2 then PostResult.status 500
        else PostResult.transportError, true⟩ "a.jpg").count
      (Event.printExhausted "a.jpg") = 0 ∧
    ∃ pre suf, sendImage ⟨true, fun i => if i < 2 then PostResult.status 500
        else PostResult.transportError, true⟩ "a.jpg" =
        pre ++ Event.post "a.jpg" :: Event.printSendFailed "a.jpg" :: suf ∧
      posts pre = 3 - 1 ∧ posts suf = 0 ∧ delays suf = 0 :=
  sendImage_transport_fatal ⟨true, fun i => if i < 2 then PostResult.status 500
      else PostResult.transportError, true⟩ "a.jpg" 3 (by decide) (by decide) rfl
    (by intro i hi
        have h2 : i < 2 := by omega
        simp [h2, PostResult.isOtherStatus])
    (by simp)

/-- C4 (fatal open short-circuit).  When the open fails, the whole run of
`sendImage` is: one call of `os.Open`, one report of the failed open, and the
deferred `wg.Done`; so there is no POST attempt, no delay, and the open is not
tried again. -/
theorem sendImage_open_failure (env : UnitEnv) (filePath : String)
    (hopen : env.openOk = false) :
    sendImage env filePath =
      [Event.openFile filePath, Event.printOpenFailed filePath, Event.wgDone] ∧
    (sendImage env filePath).count (Event.printOpenFailed filePath) = 1 ∧
    posts (sendImage env filePath) = 0 ∧
    delays (sendImage env filePath) = 0 ∧
    (sendImage env filePath).countP Event.isOpen = 1 := by
  have ht : sendImage env filePath =
      [Event.openFile filePath, Event.printOpenFailed filePath, Event.wgDone] := by
    simp [sendImage, sendImageBody, hopen]
  rw [ht]
  simp [posts, delays, Event.isPost, Event.isSleep, Event.isOpen, List.count_cons]

/-- Witness for C4: a file that cannot be opened, in front of an endpoint that
would accept it. -/
theorem sendImage_open_failure_witness :
    sendImage ⟨false, fun _ => PostResult.status 200, true⟩ "missing.jpg" =
      [Event.openFile "missing.jpg", Event.printOpenFailed "missing.jpg", Event.wgDone] ∧
    (sendImage ⟨false, fun _ => PostResult.status 200, true⟩ "missing.jpg").count
      (Event.printOpenFailed "missing.jpg") = 1 ∧
    posts (sendImage ⟨false, fun _ => PostResult.status 200, true⟩ "missing.jpg") = 0 ∧
    delays (sendImage ⟨false, fun _ => PostResult.status 200, true⟩ "missing.jpg") = 0 ∧
    (sendImage ⟨false, fun _ => PostResult.status 200, true⟩ "missing.jpg").countP
      Event.isOpen = 1 :=
  sendImage_open_failure ⟨false, fun _ => PostResult.status 200, true⟩ "missing.jpg" rfl

/-- Witness for C1: an endpoint that always answers 500. -/
theorem sendImage_retry_bound_witness :
    posts (sendImage ⟨true, fun _ => PostResult.status 500, true⟩ "a.jpg") = 4 ∧
    postsSpaced 10 (sendImage ⟨true, fun _ => PostResult.status 500, true⟩ "a.jpg") = true ∧
    (∀ e ∈ sendImage ⟨true, fun _ => PostResult.status 500, true⟩ "a.jpg",
      e.isSleep = true → e = Event.sleep 10) ∧
    (sendImage ⟨true, fun _ => PostResult.status 500, true⟩ "a.jpg").count
      (Event.printExhausted "a.jpg") = 1 ∧
    ∃ pre suf, sendImage ⟨true, fun _ => PostResult.status 500, true⟩ "a.jpg" =
        pre ++ Event.printExhausted "a.jpg" :: suf ∧
      posts pre = 4 ∧ posts suf = 0 :=
  sendImage_retry_bound ⟨true, fun _ => PostResult.status 500, true⟩ "a.jpg" rfl
    (fun _ => rfl)

/-- C7 (delay only when attempts remain), evaluated on the code.  Against an
endpoint that always answers 500 the run performs 4 delays, not 3: the fourth
10-second sleep follows the fourth (last) attempt and precedes the report of
exhausted retries. -/
theorem sendImage_sleeps_after_last_attempt :
    sendImage ⟨true, fun _ => PostResult.status 500, true⟩ "a.jpg" =
      [Event.openFile "a.jpg",
        Event.post "a.jpg", Event.printStatus "a.jpg" 500, Event.sleep 10,
        Event.post "a.jpg", Event.printStatus "a.jpg" 500, Event.sleep 10,
        Event.post "a.jpg", Event.printStatus "a.jpg" 500, Event.sleep 10,
        Event.post "a.jpg", Event.printStatus "a.jpg" 500, Event.sleep 10,
        Event.printExhausted "a.jpg", Event.closeFile "a.jpg", Event.wgDone] ∧
    delays (sendImage ⟨true, fun _ => PostResult.status 500, true⟩ "a.jpg") = 4 := by
  have ht := sendImage_all_other ⟨true, fun _ => PostResult.status 500, true⟩ "a.jpg" rfl
    500 500 500 500 rfl rfl rfl rfl (by decide) (by decide) (by decide) (by decide)
  rw [ht]
  simp [deferredClose, delays, Event.isSleep, List.countP_cons]

/-- The loop starts with a POST whenever its condition holds. -/
theorem retryLoop_starts_with_post (filePath : String) (post : Nat → PostResult)
    (sent retryCount : Nat) (hlt : retryCount < 4) :
    ∃ rest, (retryLoop filePath post sent retryCount).1 = Event.post filePath :: rest := by
  rw [retryLoop]
  simp only [hlt, if_true]
  cases hp : post sent with
  | transportError => exact ⟨_, rfl⟩
  | status code =>
    by_cases hc : code = 200 ∨ code = 201
    · simp only [hc, if_true]; exact ⟨_, rfl⟩
    · simp only [hc, if_false]; exact ⟨_, rfl⟩

theorem afterLoop_mem (filePath : String) (x : LoopExit) :
    ∀ e ∈ afterLoop filePath x, e = Event.printExhausted filePath := by
  intro e he
  cases x with
  | returned => simp [afterLoop] at he
  | fellThrough rc =>
    simp only [afterLoop] at he
    split at he
    · simpa using he
    · simp at he

theorem deferredClose_eq (filePath : String) (closeOk : Bool) :
    ∃ rest, deferredClose filePath closeOk = Event.closeFile filePath :: rest ∧
      (rest = [] ∨ rest = [Event.printCloseFailed filePath]) := by
  cases closeOk
  · exact ⟨[Event.printCloseFailed filePath], by simp [deferredClose], Or.inr rfl⟩
  · exact ⟨[], by simp [deferredClose], Or.inl rfl⟩

/-- The body of `sendImage` does not call `wg.Done`. -/
theorem wgDone_not_mem_sendImageBody (env : UnitEnv) (filePath : String) :
    Event.wgDone ∉ sendImageBody env filePath := by
  intro hmem
  cases ho : env.openOk with
  | false => simp [sendImageBody, ho] at hmem
  | true =>
    simp only [sendImageBody, ho, if_true, List.mem_append, List.mem_cons] at hmem
    rcases hmem with h | (h | h) | h
    · cases h
    · have := retryLoop_inLoop filePath env.post 0 0 _ h
      simp [Event.inLoop] at this
    · have := afterLoop_mem filePath _ _ h
      cases this
    · obtain ⟨rest, hd, hr⟩ := deferredClose_eq filePath env.closeOk
      rw [hd] at h
      rcases hr with rfl | rfl <;> simp at h

/-- C8 (deregistration exactly once).  For every environment (open failure,
success, transport error or exhausted retries, on any attempt) the run of
`sendImage` calls `wg.Done` exactly once, and that call is the last event of the
run, after every POST, delay, report and the close of the file. -/
theorem sendImage_done_exactly_once (env : UnitEnv) (filePath : String) :
    (sendImage env filePath).count Event.wgDone = 1 ∧
    ∃ pre, sendImage env filePath = pre ++ [Event.wgDone] ∧ Event.wgDone ∉ pre := by
  have hn := wgDone_not_mem_sendImageBody env filePath
  refine ⟨?_, sendImageBody env filePath, rfl, hn⟩
  simp [sendImage, List.count_append, List.count_eq_zero.mpr hn]

/-- The close is not an event of the retry loop. -/
theorem countP_isClose_retryLoop (filePath : String) (post : Nat → PostResult)
    (sent retryCount : Nat) :
    (retryLoop filePath post sent retryCount).1.countP Event.isClose = 0 := by
  rw [List.countP_eq_zero]
  intro e he hc
  have := retryLoop_inLoop filePath post sent retryCount e he
  cases e <;> simp [Event.inLoop, Event.isClose] at this hc

theorem countP_isClose_afterLoop (filePath : String) (x : LoopExit) :
    (afterLoop filePath x).countP Event.isClose = 0 := by
  rw [List.countP_eq_zero]
  intro e he hc
  have := afterLoop_mem filePath x e he
  subst this
  simp [Event.isClose] at hc

/-- C10 (file handle release).  When the open succeeds, whatever the responses,
the run of `sendImage` closes the file exactly once; the close comes after at
least one POST and after the last POST, and only the report of a failed close
and the final `wg.Done` follow it.  When the open fails, no close is performed. -/
theorem sendImage_file_release (env : UnitEnv) (filePath : String) :
    (env.openOk = true →
      (sendImage env filePath).countP Event.isClose = 1 ∧
      ∃ pre suf, sendImage env filePath = pre ++ Event.closeFile filePath :: suf ∧
        1 ≤ posts pre ∧ posts suf = 0 ∧
        (suf = [Event.wgDone] ∨ suf = [Event.printCloseFailed filePath, Event.wgDone])) ∧
    (env.openOk = false → (sendImage env filePath).countP Event.isClose = 0) := by
  constructor
  · intro hopen
    obtain ⟨rest, hd, hr⟩ := deferredClose_eq filePath env.closeOk
    obtain ⟨tl, htl⟩ := retryLoop_starts_with_post filePath env.post 0 0 (by decide)
    have hl := countP_isClose_retryLoop filePath env.post 0 0
    have ha := countP_isClose_afterLoop filePath (retryLoop filePath env.post 0 0).2
    constructor
    · simp only [sendImage, sendImageBody, hopen, if_true, hd]
      rcases hr with rfl | rfl <;>
        simp [List.countP_append, List.countP_cons, Event.isClose, hl, ha]
    · refine ⟨Event.openFile filePath :: ((retryLoop filePath env.post 0 0).1 ++
          afterLoop filePath (retryLoop filePath env.post 0 0).2), rest ++ [Event.wgDone],
        ?_, ?_, ?_, ?_⟩
      · simp [sendImage, sendImageBody, hopen, hd]
      · rw [htl]
        simp [posts, List.countP_cons, Event.isPost]
      · rcases hr with rfl | rfl <;> simp [posts, List.countP_cons, Event.isPost]
      · rcases hr with rfl | rfl <;> simp
  · intro hopen
    simp [sendImage, sendImageBody, hopen, Event.isClose]

/-- Witness for C10: a run whose open succeeds (and whose close fails), and a run
whose open fails. -/
theorem sendImage_file_release_witness :
    ((sendImage ⟨true, fun _ => PostResult.transportError, false⟩ "a.jpg").countP
        Event.isClose = 1 ∧
      ∃ pre suf, sendImage ⟨true, fun _ => PostResult.transportError, false⟩ "a.jpg" =
          pre ++ Event.closeFile "a.jpg" :: suf ∧
        1 ≤ posts pre ∧ posts suf = 0 ∧
        (suf = [Event.wgDone] ∨ suf = [Event.printCloseFailed "a.jpg", Event.wgDone])) ∧
    (sendImage ⟨false, fun _ => PostResult.transportError, false⟩ "a.jpg").countP
      Event.isClose = 0 :=
  ⟨(sendImage_file_release ⟨true, fun _ => PostResult.transportError, false⟩ "a.jpg").1 rfl,
    (sendImage_file_release ⟨false, fun _ => PostResult.transportError, false⟩ "a.jpg").2 rfl⟩

/-! ### `sendImagesFromFolder`: discovery and dispatch -/

/-- The callback of the walk never returns an error. -/
theorem walkFn_no_error (e : WalkEntry) : (walkFn e).2 = false := by
  unfold walkFn
  split
  · rfl
  · split <;> rfl

/-- As the callback never returns an error, the walk invokes it on every entry. -/
theorem Walk_walkFn (entries : List WalkEntry) :
    Walk walkFn entries = (entries.flatMap fun e => (walkFn e).1, false) := by
  induction entries with
  | nil => simp [Walk]
  | cons e es ih => simp [Walk, walkFn_no_error, ih]

theorem sendImagesFromFolder_eq (entries : List WalkEntry) :
    sendImagesFromFolder entries =
      (entries.flatMap fun e => (walkFn e).1) ++ [MainEvent.wgWait] := by
  simp [sendImagesFromFolder, Walk_walkFn]

theorem dispatched_walkFn (e : WalkEntry) :
    dispatched (walkFn e).1 = if eligible e then [e.path] else [] := by
  unfold walkFn eligible
  cases e.failed <;> cases e.isDir <;> cases isImage e.path <;> simp [dispatched]

theorem warnings_walkFn (e : WalkEntry) :
    warnings (walkFn e).1 = if e.failed then [e.path] else [] := by
  unfold walkFn
  cases e.failed <;> cases e.isDir <;> cases isImage e.path <;> simp [warnings]

theorem dispatched_append (a b : List MainEvent) :
    dispatched (a ++ b) = dispatched a ++ dispatched b := by
  simp [dispatched]

theorem warnings_append (a b : List MainEvent) :
    warnings (a ++ b) = warnings a ++ warnings b := by
  simp [warnings]

theorem dispatched_sendImagesFromFolder (entries : List WalkEntry) :
    dispatched (sendImagesFromFolder entries) = (entries.filter eligible).map WalkEntry.path := by
  rw [sendImagesFromFolder_eq, dispatched_append]
  induction entries with
  | nil => simp [dispatched]
  | cons e es ih =>
    rw [List.flatMap_cons, dispatched_append, List.append_assoc, ih, dispatched_walkFn]
    cases he : eligible e <;> simp [List.filter_cons, he]

theorem warnings_sendImagesFromFolder (entries : List WalkEntry) :
    warnings (sendImagesFromFolder entries) =
      (entries.filter WalkEntry.failed).map WalkEntry.path := by
  rw [sendImagesFromFolder_eq, warnings_append]
  induction entries with
  | nil => simp [warnings]
  | cons e es ih =>
    rw [List.flatMap_cons, warnings_append, List.append_assoc, ih, warnings_walkFn]
    cases he : e.failed <;> simp [List.filter_cons, he]

/-- C6 (discovery dispatch).  For every sequence of entries visited by the walk:
the callback never returns an error, so the walk processes every entry and
reports no walk error; the units dispatched are, in order and with
multiplicity, the paths of the entries read without error that are not
directories and satisfy `isImage`; and the warnings reported are the paths of
the entries whose traversal step failed, for which no unit is dispatched. -/
theorem discovery_dispatch (entries : List WalkEntry) :
    (∀ e : WalkEntry, (walkFn e).2 = false) ∧
    (Walk walkFn entries).2 = false ∧
    sendImagesFromFolder entries =
      (entries.flatMap fun e => (walkFn e).1) ++ [MainEvent.wgWait] ∧
    dispatched (sendImagesFromFolder entries) =
      (entries.filter fun e => !e.failed && !e.isDir && isImage e.path).map WalkEntry.path ∧
    warnings (sendImagesFromFolder entries) =
      (entries.filter WalkEntry.failed).map WalkEntry.path ∧
    (∀ (path : String) (isDir : Bool),
      walkFn ⟨path, isDir, true⟩ = ([MainEvent.printReadFailed path], false)) := by
  refine ⟨walkFn_no_error, by rw [Walk_walkFn], sendImagesFromFolder_eq entries,
    dispatched_sendImagesFromFolder entries, warnings_sendImagesFromFolder entries, ?_⟩
  intro path isDir
  simp [walkFn]

/-! ### `sendImagesFromFolder`: the completion barrier -/

theorem countP_set_of_getElem? {α : Type} (p : α → Bool) (u1 : α) :
    ∀ (us : List α) (i : Nat) (u : α), us[i]? = some u →
      (us.set i u1).countP p + (if p u then 1 else 0) =
        us.countP p + (if p u1 then 1 else 0) := by
  intro us
  induction us with
  | nil => intro i u h; simp at h
  | cons x xs ih =>
    intro i u h
    cases i with
    | zero =>
      simp at h
      subst h
      simp only [List.set_cons_zero, List.countP_cons]
      omega
    | succ i =>
      simp at h
      have := ih i u h
      simp only [List.set_cons_succ, List.countP_cons]
      omega

theorem map_set_same {α β : Type} (f : α → β) (u1 : α) :
    ∀ (us : List α) (i : Nat) (u : α), us[i]? = some u → f u1 = f u →
      (us.set i u1).map f = us.map f := by
  intro us
  induction us with
  | nil => intro i u h; simp at h
  | cons x xs ih =>
    intro i u h hf
    cases i with
    | zero =>
      simp at h
      subst h
      simp [hf]
    | succ i =>
      simp at h
      simp [ih i u h hf]

theorem pendingGo_of_registersBeforeStart (m : List MainEvent)
    (h : registersBeforeStart m = true) : pendingGo m = 0 := by
  cases m with
  | nil => rfl
  | cons a rest =>
    cases a with
    | go p => simp [registersBeforeStart] at h
    | _ => rfl

theorem walkFn_cases (e : WalkEntry) :
    (walkFn e).1 = [MainEvent.printReadFailed e.path] ∨ (walkFn e).1 = [] ∨
      (walkFn e).1 = [MainEvent.wgAdd 1, MainEvent.go e.path] := by
  unfold walkFn
  cases e.failed <;> cases e.isDir <;> cases isImage e.path <;> simp

theorem registersBeforeStart_walk (entries : List WalkEntry) :
    registersBeforeStart ((entries.flatMap fun e => (walkFn e).1) ++ [MainEvent.wgWait]) =
      true := by
  induction entries with
  | nil => simp [registersBeforeStart]
  | cons e es ih =>
    rw [List.flatMap_cons, List.append_assoc]
    rcases walkFn_cases e with h | h | h <;> rw [h] <;> simp [registersBeforeStart, ih]

theorem registrations_eq_dispatched (entries : List WalkEntry) :
    registrations ((entries.flatMap fun e => (walkFn e).1) ++ [MainEvent.wgWait]) =
      (dispatched ((entries.flatMap fun e => (walkFn e).1) ++ [MainEvent.wgWait])).length := by
  induction entries with
  | nil => simp [registrations, dispatched]
  | cons e es ih =>
    rw [List.flatMap_cons, List.append_assoc]
    simp only [registrations, dispatched] at ih ⊢
    rcases walkFn_cases e with h | h | h <;> rw [h] <;>
      simp [List.countP_cons, List.filterMap_cons, ih]

/-- In a trace that ends with its only `wg.Done`, what follows an event is empty
exactly when that event is the `wg.Done`. -/
theorem todo_tail_nil_iff (done rest body : List Event) (e : Event)
    (h : done ++ e :: rest = body ++ [Event.wgDone]) (hn : Event.wgDone ∉ body) :
    rest = [] ↔ e = Event.wgDone := by
  constructor
  · intro hr
    subst hr
    have h1 : done ++ [e] = body ++ [Event.wgDone] := h
    have hl : done.length = body.length := by
      have := congrArg List.length h1
      simpa using this
    have h2 := List.append_inj_right h1 hl
    simpa using h2
  · intro he
    subst he
    by_contra hne
    obtain ⟨r1, x, hx⟩ : ∃ r1 x, rest = r1 ++ [x] := by
      induction rest using List.reverseRecOn with
      | nil => exact absurd rfl hne
      | append_singleton r1 x _ => exact ⟨r1, x, rfl⟩
    rw [hx] at h
    have h2 : (done ++ Event.wgDone :: r1) ++ [x] = body ++ [Event.wgDone] := by
      simpa using h
    have hl : (done ++ Event.wgDone :: r1).length = body.length := by
      have := congrArg List.length h2
      simp only [List.length_append, List.length_singleton, List.length_cons] at this ⊢
      omega
    have hb := List.append_inj_left h2 hl
    apply hn
    rw [← hb]
    simp

theorem registersBeforeStart_nil : registersBeforeStart [] = false := rfl

theorem registersBeforeStart_print (p : String) (rest : List MainEvent) :
    registersBeforeStart (MainEvent.printReadFailed p :: rest) = registersBeforeStart rest := by
  cases rest <;> rfl

theorem registersBeforeStart_go (p : String) (rest : List MainEvent) :
    registersBeforeStart (MainEvent.go p :: rest) = false := by
  cases rest <;> rfl

theorem registersBeforeStart_walkError (rest : List MainEvent) :
    registersBeforeStart (MainEvent.printWalkError :: rest) = false := by
  cases rest <;> rfl

theorem registersBeforeStart_wait (rest : List MainEvent)
    (h : registersBeforeStart (MainEvent.wgWait :: rest) = true) : rest = [] := by
  cases rest with
  | nil => rfl
  | cons a r => simp [registersBeforeStart] at h

theorem registersBeforeStart_add (delta : Nat) (rest : List MainEvent)
    (h : registersBeforeStart (MainEvent.wgAdd delta :: rest) = true) :
    delta = 1 ∧ ∃ p r, rest = MainEvent.go p :: r ∧ registersBeforeStart r = true := by
  cases rest with
  | nil => simp [registersBeforeStart] at h
  | cons a r =>
    cases a with
    | go p =>
      by_cases hd : delta = 1
      · subst hd
        exact ⟨rfl, p, r, rfl, by simpa [registersBeforeStart] using h⟩
      · exfalso
        unfold registersBeforeStart at h
        split at h <;> simp_all
    | _ =>
      exfalso
      unfold registersBeforeStart at h
      split at h <;> simp_all

theorem sendImage_running (env : UnitEnv) (filePath : String) :
    UnitState.running ⟨filePath, [], sendImage env filePath⟩ = true := by
  simp [UnitState.running, sendImage]

/-- A step of the main flow preserves the invariant. -/
theorem step_main_invariant (envOf : String → UnitEnv) (paths : List String)
    (s s1 : SysState) (hinv : Invariant envOf paths s)
    (hstep : step envOf s Actor.main = some s1) : Invariant envOf paths s1 := by
  obtain ⟨main, wg, units⟩ := s
  obtain ⟨hshape, hcounter, htraces, hpaths, hret⟩ := hinv
  simp only at hshape hcounter htraces hpaths hret
  cases main with
  | nil => simp [step] at hstep
  | cons ev rest =>
    cases ev with
    | printReadFailed p =>
      simp only [step, Option.some.injEq] at hstep
      subst hstep
      have hr : registersBeforeStart rest = true := by
        rcases hshape with h | h | ⟨p1, r1, h, _⟩
        · cases h
        · rwa [registersBeforeStart_print] at h
        · cases h
      refine ⟨Or.inr (Or.inl hr), ?_, htraces, ?_, ?_⟩
      · have h0 : pendingGo (MainEvent.printReadFailed p :: rest) = 0 := rfl
        rw [h0] at hcounter
        simp only
        rw [pendingGo_of_registersBeforeStart rest hr]
        exact hcounter
      · simpa [dispatched] using hpaths
      · intro h
        simp only at h
        subst h
        simp [registersBeforeStart] at hr
    | wgAdd delta =>
      simp only [step, Option.some.injEq] at hstep
      subst hstep
      have hr : registersBeforeStart (MainEvent.wgAdd delta :: rest) = true := by
        rcases hshape with h | h | ⟨p1, r1, h, _⟩
        · cases h
        · exact h
        · cases h
      obtain ⟨hd, p, r, hrest, hrr⟩ := registersBeforeStart_add delta rest hr
      subst hd hrest
      refine ⟨Or.inr (Or.inr ⟨p, r, rfl, hrr⟩), ?_, htraces, ?_, ?_⟩
      · simp only [pendingGo] at hcounter ⊢
        omega
      · simpa [dispatched] using hpaths
      · intro h
        cases h
    | go p =>
      simp only [step, Option.some.injEq] at hstep
      subst hstep
      have hr : registersBeforeStart rest = true := by
        rcases hshape with h | h | ⟨p1, r1, h, h1⟩
        · cases h
        · rw [registersBeforeStart_go] at h; cases h
        · cases h; exact h1
      refine ⟨Or.inr (Or.inl hr), ?_, ?_, ?_, ?_⟩
      · have h0 : pendingGo (MainEvent.go p :: rest) = 1 := rfl
        rw [h0] at hcounter
        simp only [pendingGo_of_registersBeforeStart rest hr, List.countP_append,
          List.countP_cons, List.countP_nil, sendImage_running, if_true]
        omega
      · intro u hu
        simp only [List.mem_append, List.mem_singleton] at hu
        rcases hu with hu | hu
        · exact htraces u hu
        · subst hu; rfl
      · simpa [dispatched] using hpaths
      · intro h
        simp only at h
        subst h
        simp [registersBeforeStart] at hr
    | printWalkError =>
      exfalso
      rcases hshape with h | h | ⟨p1, r1, h, _⟩
      · cases h
      · rw [registersBeforeStart_walkError] at h; cases h
      · cases h
    | wgWait =>
      have hr : rest = [] := by
        rcases hshape with h | h | ⟨p1, r1, h, _⟩
        · cases h
        · exact registersBeforeStart_wait rest h
        · cases h
      subst hr
      simp only [step] at hstep
      split at hstep
      · rename_i hz
        simp only [Option.some.injEq] at hstep
        subst hstep
        simp only [pendingGo] at hcounter
        refine ⟨Or.inl rfl, ?_, htraces, ?_, ?_⟩
        · simpa [pendingGo] using hcounter
        · simpa [dispatched] using hpaths
        · intro _
          simp only at hz ⊢
          omega
      · cases hstep

/-- A step of a unit preserves the invariant. -/
theorem step_unit_invariant (envOf : String → UnitEnv) (paths : List String)
    (s s1 : SysState) (i : Nat) (hinv : Invariant envOf paths s)
    (hstep : step envOf s (Actor.unit i) = some s1) : Invariant envOf paths s1 := by
  obtain ⟨main, wg, units⟩ := s
  obtain ⟨hshape, hcounter, htraces, hpaths, hret⟩ := hinv
  simp only at hshape hcounter htraces hpaths hret
  simp only [step] at hstep
  cases hu : units[i]? with
  | none => simp [hu] at hstep
  | some u =>
    obtain ⟨fp, done, todo⟩ := u
    simp only [hu] at hstep
    cases todo with
    | nil => simp at hstep
    | cons e rest =>
      simp only at hstep
      have hmem : (⟨fp, done, e :: rest⟩ : UnitState) ∈ units := List.getElem?_mem hu
      have htr := htraces _ hmem
      simp only at htr
      have hbody : sendImage (envOf fp) fp = sendImageBody (envOf fp) fp ++ [Event.wgDone] := rfl
      rw [hbody] at htr
      have hiff := todo_tail_nil_iff done rest _ e htr (wgDone_not_mem_sendImageBody (envOf fp) fp)
      have hrun : UnitState.running ⟨fp, done, e :: rest⟩ = true := by simp [UnitState.running]
      have hcount := countP_set_of_getElem? UnitState.running ⟨fp, done ++ [e], rest⟩ units i _ hu
      rw [hrun] at hcount
      simp only [if_true] at hcount
      have htraces1 : ∀ u ∈ units.set i ⟨fp, done ++ [e], rest⟩,
          u.done ++ u.todo = sendImage (envOf u.filePath) u.filePath := by
        intro u hu1
        rcases List.mem_or_eq_of_mem_set hu1 with h | h
        · exact htraces u h
        · subst h
          simp only [List.append_assoc, List.singleton_append]
          rw [hbody]; exact htr
      have hpaths1 : (units.set i ⟨fp, done ++ [e], rest⟩).map UnitState.filePath ++
          dispatched main = paths := by
        rw [map_set_same UnitState.filePath ⟨fp, done ++ [e], rest⟩ units i _ hu rfl]
        exact hpaths
      by_cases he : e = Event.wgDone
      · have hrest : rest = [] := hiff.mpr he
        subst hrest
        have hrun1 : UnitState.running ⟨fp, done ++ [e], []⟩ = false := by
          simp [UnitState.running]
        rw [hrun1] at hcount
        simp only [Bool.false_eq_true, if_false, Nat.add_zero] at hcount
        simp only [he, if_true] at hstep
        split at hstep
        · cases hstep
        · simp only [Option.some.injEq] at hstep
          subst hstep
          subst he
          refine ⟨hshape, ?_, htraces1, hpaths1, ?_⟩
          · simp only
            omega
          · intro hm
            have := hret hm
            simp only at this ⊢
            omega
      · have hrest : rest ≠ [] := fun h => he (hiff.mp h)
        have hrun1 : UnitState.running ⟨fp, done ++ [e], rest⟩ = true := by
          cases rest with
          | nil => exact absurd rfl hrest
          | cons x r => simp [UnitState.running]
        rw [hrun1] at hcount
        simp only [if_true] at hcount
        simp only [he, if_false, Option.some.injEq] at hstep
        subst hstep
        refine ⟨hshape, ?_, htraces1, hpaths1, ?_⟩
        · simp only
          omega
        · intro hm
          have := hret hm
          simp only at this ⊢
          omega

/-- Every step preserves the invariant. -/
theorem step_invariant (envOf : String → UnitEnv) (paths : List String)
    (s s1 : SysState) (a : Actor) (hinv : Invariant envOf paths s)
    (hstep : step envOf s a = some s1) : Invariant envOf paths s1 := by
  cases a with
  | main => exact step_main_invariant envOf paths s s1 hinv hstep
  | unit i => exact step_unit_invariant envOf paths s s1 i hinv hstep

/-- Every run preserves the invariant. -/
theorem run_invariant (envOf : String → UnitEnv) (paths : List String)
    (schedule : List Actor) :
    ∀ s s1, Invariant envOf paths s → run envOf s schedule = some s1 →
      Invariant envOf paths s1 := by
  induction schedule with
  | nil =>
    intro s s1 hinv hrun
    simp only [run, Option.some.injEq] at hrun
    subst hrun
    exact hinv
  | cons a rest ih =>
    intro s s1 hinv hrun
    simp only [run] at hrun
    cases hs : step envOf s a with
    | none => simp [hs] at hrun
    | some s2 =>
      simp only [hs] at hrun
      exact ih s2 s1 (step_invariant envOf paths s s2 a hinv hs) hrun

/-- The invariant holds when `sendImagesFromFolder` is called. -/
theorem initial_invariant (envOf : String → UnitEnv) (entries : List WalkEntry) :
    Invariant envOf (dispatched (sendImagesFromFolder entries)) (initialState entries) := by
  have hr : registersBeforeStart (sendImagesFromFolder entries) = true := by
    rw [sendImagesFromFolder_eq]; exact registersBeforeStart_walk entries
  refine ⟨Or.inr (Or.inl hr), ?_, ?_, ?_, ?_⟩
  · simp [initialState, pendingGo_of_registersBeforeStart _ hr]
  · intro u hu
    simp [initialState] at hu
  · simp [initialState]
  · intro h
    simp only [initialState] at h
    rw [h] at hr
    cases hr

theorem run_append (envOf : String → UnitEnv) (a : List Actor) :
    ∀ (b : List Actor) (s s1 : SysState), run envOf s a = some s1 →
      run envOf s (a ++ b) = run envOf s1 b := by
  induction a with
  | nil =>
    intro b s s1 h
    simp only [run, Option.some.injEq] at h
    subst h
    rfl
  | cons x xs ih =>
    intro b s s1 h
    simp only [run, List.cons_append] at h ⊢
    cases hs : step envOf s x with
    | none => simp [hs] at h
    | some s2 =>
      simp only [hs] at h ⊢
      exact ih b s2 s1 h

theorem run_cons (envOf : String → UnitEnv) (s s1 : SysState) (a : Actor)
    (schedule : List Actor) (h : step envOf s a = some s1) :
    run envOf s (a :: schedule) = run envOf s1 schedule := by
  simp only [run, h]

/-- The unit started last, scheduled alone, runs through its remaining events and
ends with `wg.Done`, which takes 1 off the counter. -/
theorem run_last_unit (envOf : String → UnitEnv) (main : List MainEvent) (wg : Nat)
    (us : List UnitState) (fp : String) (t : List Event) :
    ∀ done, Event.wgDone ∉ t →
      run envOf ⟨main, wg + 1, us ++ [⟨fp, done, t ++ [Event.wgDone]⟩]⟩
          (List.replicate (t.length + 1) (Actor.unit us.length)) =
        some ⟨main, wg, us ++ [⟨fp, done ++ (t ++ [Event.wgDone]), []⟩]⟩ := by
  induction t with
  | nil =>
    intro done _
    simp [run, step, List.getElem?_concat_length]
  | cons e t ih =>
    intro done hn
    have he : e ≠ Event.wgDone := fun h => hn (by simp [h])
    have ht : Event.wgDone ∉ t := fun h => hn (by simp [h])
    have h1 : List.replicate ((e :: t).length + 1) (Actor.unit us.length) =
        Actor.unit us.length :: List.replicate (t.length + 1) (Actor.unit us.length) := by
      simp [List.replicate_succ]
    have h2 : step envOf ⟨main, wg + 1, us ++ [⟨fp, done, (e :: t) ++ [Event.wgDone]⟩]⟩
        (Actor.unit us.length) =
        some ⟨main, wg + 1, us ++ [⟨fp, done ++ [e], t ++ [Event.wgDone]⟩]⟩ := by
      simp [step, List.getElem?_concat_length, he]
    rw [h1, run_cons envOf _ _ _ _ h2, ih (done ++ [e]) ht]
    simp

/-- Scheduling the main flow and running every unit right after its start lets
the main flow return. -/
theorem exists_returning_schedule (envOf : String → UnitEnv) (entries : List WalkEntry) :
    ∀ us : List UnitState, ∃ schedule us1,
      run envOf ⟨(entries.flatMap fun e => (walkFn e).1) ++ [MainEvent.wgWait], 0, us⟩
        schedule = some ⟨[], 0, us1⟩ := by
  induction entries with
  | nil =>
    intro us
    exact ⟨[Actor.main], us, by simp [run, step]⟩
  | cons e es ih =>
    intro us
    rw [List.flatMap_cons, List.append_assoc]
    rcases walkFn_cases e with h | h | h <;> rw [h]
    · obtain ⟨sch, us1, hrun⟩ := ih us
      exact ⟨Actor.main :: sch, us1, by simpa [run, step] using hrun⟩
    · exact ih us
    · obtain ⟨sch, us1, hrun⟩ :=
        ih (us ++ [⟨e.path, [] ++ (sendImageBody (envOf e.path) e.path ++ [Event.wgDone]), []⟩])
      refine ⟨[Actor.main, Actor.main] ++
        (List.replicate ((sendImageBody (envOf e.path) e.path).length + 1)
          (Actor.unit us.length) ++ sch), us1, ?_⟩
      have h1 : run envOf
          ⟨[MainEvent.wgAdd 1, MainEvent.go e.path] ++
            ((es.flatMap fun e => (walkFn e).1) ++ [MainEvent.wgWait]), 0, us⟩
          [Actor.main, Actor.main] =
          some ⟨(es.flatMap fun e => (walkFn e).1) ++ [MainEvent.wgWait], 0 + 1,
            us ++ [⟨e.path, [], sendImageBody (envOf e.path) e.path ++ [Event.wgDone]⟩]⟩ := by
        simp [run, step, sendImage]
      rw [run_append envOf _ _ _ _ h1,
        run_append envOf _ _ _ _ (run_last_unit envOf _ 0 us e.path _ []
          (wgDone_not_mem_sendImageBody (envOf e.path) e.path))]
      exact hrun

/-- C9 (completion barrier).  In the main flow of `sendImagesFromFolder` every
`go` is immediately preceded by its own `wg.Add(1)` and `wg.Wait()` is the last
statement, so the number of registrations is the number of dispatched units.
Some interleaving of the main flow with the dispatched units lets
`sendImagesFromFolder` return; and in every interleaving, once it has returned,
the units that exist are exactly the dispatched ones, each has reached its
terminal state having performed the whole trace of `sendImage` for its path,
and, when every open and every first POST succeeds, each has reported its
success. -/
theorem completion_barrier (envOf : String → UnitEnv) (entries : List WalkEntry) :
    registersBeforeStart (sendImagesFromFolder entries) = true ∧
    registrations (sendImagesFromFolder entries) =
      (dispatched (sendImagesFromFolder entries)).length ∧
    (∃ (schedule : List Actor) (s : SysState),
      run envOf (initialState entries) schedule = some s ∧ s.main = []) ∧
    ∀ (schedule : List Actor) (s : SysState),
      run envOf (initialState entries) schedule = some s → s.main = [] →
        s.units.map UnitState.filePath = dispatched (sendImagesFromFolder entries) ∧
        (∀ u ∈ s.units, u.todo = [] ∧ u.done = sendImage (envOf u.filePath) u.filePath) ∧
        ((∀ p, (envOf p).openOk = true ∧ ((envOf p).post 0).isSuccess = true) →
          ∀ u ∈ s.units, u.done.count (Event.printSuccess u.filePath) = 1) := by
  refine ⟨?_, ?_, ?_, ?_⟩
  · rw [sendImagesFromFolder_eq]; exact registersBeforeStart_walk entries
  · rw [sendImagesFromFolder_eq]; exact registrations_eq_dispatched entries
  · obtain ⟨schedule, us1, hrun⟩ := exists_returning_schedule envOf entries []
    refine ⟨schedule, ⟨[], 0, us1⟩, ?_, rfl⟩
    rw [initialState, sendImagesFromFolder_eq]
    exact hrun
  · intro schedule s hrun hmain
    have hinv := run_invariant envOf _ schedule _ s (initial_invariant envOf entries) hrun
    have hnone := hinv.returned hmain
    have hterm : ∀ u ∈ s.units, u.todo = [] ∧
        u.done = sendImage (envOf u.filePath) u.filePath := by
      intro u hu
      have h1 : u.running = false := by
        by_contra hne
        have hpos : 0 < s.units.countP UnitState.running :=
          List.countP_pos_iff.mpr ⟨u, hu, by simpa using hne⟩
        omega
      have h2 : u.todo = [] := by
        simpa [UnitState.running] using h1
      have h3 := hinv.traces u hu
      rw [h2, List.append_nil] at h3
      exact ⟨h2, h3⟩
    refine ⟨?_, hterm, ?_⟩
    · have := hinv.paths
      rw [hmain] at this
      simpa [dispatched] using this
    · intro hall u hu
      rw [(hterm u hu).2,
        sendImage_success_trace (envOf u.filePath) u.filePath 1 (le_refl 1) (by decide)
          (hall u.filePath).1 (by intro i hi; omega) (hall u.filePath).2]
      simp [failedRounds, List.count_cons, List.count_append,
        count_deferredClose_zero u.filePath (envOf u.filePath).closeOk
          (Event.printSuccess u.filePath)]

/-- Witness for C9: two images, a directory, an unreadable entry and a text
file, in front of an endpoint that always answers 201, with the units
interleaved with the main flow. -/
theorem completion_barrier_witness :
    ∃ s : SysState,
      run (fun _ => ⟨true, fun _ => PostResult.status 201, true⟩)
        (initialState [⟨"d", true, false⟩, ⟨"d/a.jpg", false, false⟩,
          ⟨"d/bad.png", false, true⟩, ⟨"d/notes.txt", false, false⟩,
          ⟨"d/b.PNG", false, false⟩])
        [Actor.main, Actor.main, Actor.unit 0, Actor.main, Actor.main, Actor.unit 0,
          Actor.main, Actor.unit 1, Actor.unit 1, Actor.unit 0, Actor.unit 0, Actor.unit 0,
          Actor.unit 1, Actor.unit 1, Actor.unit 1, Actor.main] = some s ∧
      s.main = [] ∧
      s.units.map UnitState.filePath = ["d/a.jpg", "d/b.PNG"] ∧
      (∀ u ∈ s.units, u.todo = [] ∧
        u.done = sendImage ⟨true, fun _ => PostResult.status 201, true⟩ u.filePath) ∧
      ∀ u ∈ s.units, u.done.count (Event.printSuccess u.filePath) = 1 := by
  have hprog : sendImagesFromFolder [⟨"d", true, false⟩, ⟨"d/a.jpg", false, false⟩,
      ⟨"d/bad.png", false, true⟩, ⟨"d/notes.txt", false, false⟩, ⟨"d/b.PNG", false, false⟩] =
      [MainEvent.wgAdd 1, MainEvent.go "d/a.jpg", MainEvent.printReadFailed "d/bad.png",
        MainEvent.wgAdd 1, MainEvent.go "d/b.PNG", MainEvent.wgWait] := by decide
  have htrace : ∀ p : String, sendImage ⟨true, fun _ => PostResult.status 201, true⟩ p =
      [Event.openFile p, Event.post p, Event.printSuccess p, Event.closeFile p,
        Event.wgDone] := by
    intro p
    simp [sendImage, sendImageBody, retryLoop, afterLoop, deferredClose]
  have hrun : run (fun _ => ⟨true, fun _ => PostResult.status 201, true⟩)
      (initialState [⟨"d", true, false⟩, ⟨"d/a.jpg", false, false⟩,
        ⟨"d/bad.png", false, true⟩, ⟨"d/notes.txt", false, false⟩,
        ⟨"d/b.PNG", false, false⟩])
      [Actor.main, Actor.main, Actor.unit 0, Actor.main, Actor.main, Actor.unit 0,
        Actor.main, Actor.unit 1, Actor.unit 1, Actor.unit 0, Actor.unit 0, Actor.unit 0,
        Actor.unit 1, Actor.unit 1, Actor.unit 1, Actor.main] =
      some ⟨[], 0,
        [⟨"d/a.jpg", [Event.openFile "d/a.jpg", Event.post "d/a.jpg",
            Event.printSuccess "d/a.jpg", Event.closeFile "d/a.jpg", Event.wgDone], []⟩,
          ⟨"d/b.PNG", [Event.openFile "d/b.PNG", Event.post "d/b.PNG",
            Event.printSuccess "d/b.PNG", Event.closeFile "d/b.PNG", Event.wgDone], []⟩]⟩ := by
    simp [initialState, hprog, htrace, run, step]
  have h := (completion_barrier (fun _ => ⟨true, fun _ => PostResult.status 201, true⟩)
    [⟨"d", true, false⟩, ⟨"d/a.jpg", false, false⟩, ⟨"d/bad.png", false, true⟩,
      ⟨"d/notes.txt", false, false⟩, ⟨"d/b.PNG", false, false⟩]).2.2.2 _ _ hrun rfl
  refine ⟨_, hrun, rfl, ?_, h.2.1, h.2.2 (fun _ => ⟨rfl, rfl⟩)⟩
  rw [h.1, hprog]
  rfl

end BulkSender
